import Mathlib

/-!
Verification of the PPM decoder in "PPM Viewer 2/main.cpp".

The decoder is the function LoadPPM (main.cpp lines 57-403).  It is embedded
shallowly here: the input byte stream is a `List Nat` of byte values, and all
stream-consuming loops of the C++ code are rendered as structurally recursive
Lean functions so that every definition evaluates by kernel reduction.
C++ `int` is modelled as `Int` (std::stoi range-checks keep every value inside
the 32-bit range, and the only products formed from in-range values stay far
below 2^62, so no wraparound of intermediate arithmetic is reachable), and the
`static_cast<uint8_t>` writes into the pixel buffer are modelled as reduction
modulo 256.
-/

namespace PPM

/-- Byte values of an ASCII string literal (used only to write down concrete
test inputs compactly; every input used is pure ASCII). -/
def bytes (s : String) : List Nat := s.toList.map Char.toNat

/-- C `isspace` in the default "C" locale, as used by both tokenizers:
true exactly for 0x09-0x0D and 0x20. -/
def isspaceB (c : Nat) : Bool := c == 32 || (9 ≤ c && c ≤ 13)

/-- ASCII decimal digit test, as used by `strtol`/`std::stoi`. -/
def isDigitB (c : Nat) : Bool := 48 ≤ c && c ≤ 57

/-- main.cpp lines 77-103, `normalizeToken`: repeatedly strip from the front of
a token a UTF-8 BOM (EF BB BF), the UTF-8 non-breaking-space pair (C2 A0), or
any single byte ≤ 0x20, until no rule fires.  The C++ loop re-runs from the top
after each strip; that is exactly this recursion. -/
def normalizeToken : List Nat → List Nat
  | [] => []
  | a :: r =>
    if a == 239 then
      match r with
      | b :: c :: r2 => if b == 187 && c == 191 then normalizeToken r2 else a :: r
      | _ => a :: r
    else if a == 194 then
      match r with
      | b :: r2 => if b == 160 then normalizeToken r2 else a :: r
      | _ => a :: r
    else if a ≤ 32 then normalizeToken r
    else a :: r

/-- One iteration of the `normalizeToken` strip loop (the body of the
`while (changed ...)` loop at main.cpp lines 79-102): `some r` when a rule
fired leaving `r`, `none` when no rule fires and the loop exits. -/
def normStep : List Nat → Option (List Nat)
  | [] => none
  | a :: r =>
    if a == 239 then
      match r with
      | b :: c :: r2 => if b == 187 && c == 191 then some r2 else none
      | _ => none
    else if a == 194 then
      match r with
      | b :: r2 => if b == 160 then some r2 else none
      | _ => none
    else if a ≤ 32 then some r
    else none

/-- main.cpp lines 160-172, `nextTokenStr`: the token reader over the in-memory
UTF-8 text buffer.  The Bool flag encodes being inside a comment line: the
source's `std::getline(ss, rest)` after a '#'-led token consumes bytes up to
and including the next newline, which is exactly the `true` state here.
`ss >> out` skips `isspace` bytes and extracts the next maximal run of
non-whitespace bytes; a run starting with '#' (0x23) is discarded together
with the remainder of its line; otherwise the run is passed through
`normalizeToken` (line 168) and returned. -/
def nextTokenStrAux : List Nat → Bool → Option (List Nat × List Nat)
  | [], _ => none
  | c :: rest, true =>
    if c == 10 then nextTokenStrAux rest false else nextTokenStrAux rest true
  | c :: rest, false =>
    if isspaceB c then nextTokenStrAux rest false
    else if c == 35 then nextTokenStrAux rest true
    else
      some (normalizeToken ((c :: rest).takeWhile (fun b => !isspaceB b)),
            (c :: rest).dropWhile (fun b => !isspaceB b))

/-- The string-buffer tokenizer, started outside a comment. -/
def nextTokenStr (s : List Nat) : Option (List Nat × List Nat) := nextTokenStrAux s false

/-- main.cpp lines 227-248, `nextToken`: the raw-stream token reader.  The skip
loop consumes whitespace bytes and, on peeking '#', a whole comment line
(`std::getline`, the `true` state); the collection loop then takes bytes until
EOF, whitespace, or '#' (line 244) - so unlike `nextTokenStr` a '#' ends the
token.  The result is the collected run, unnormalized. -/
def nextTokenAux : List Nat → Bool → Option (List Nat × List Nat)
  | [], _ => none
  | c :: rest, true =>
    if c == 10 then nextTokenAux rest false else nextTokenAux rest true
  | c :: rest, false =>
    if isspaceB c then nextTokenAux rest false
    else if c == 35 then nextTokenAux rest true
    else
      some ((c :: rest).takeWhile (fun b => !isspaceB b && !(b == 35)),
            (c :: rest).dropWhile (fun b => !isspaceB b && !(b == 35)))

/-- The raw-stream tokenizer, started outside a comment. -/
def nextToken (s : List Nat) : Option (List Nat × List Nat) := nextTokenAux s false

/-- The sequence of tokens produced by repeatedly calling `nextTokenStr`.
The fuel argument only bounds the recursion; each produced token consumes at
least one byte, so fuel `s.length + 1` (used by the wrapper) is never
exhausted before the token source reports end-of-tokens. -/
def tokensStrF : Nat → List Nat → List (List Nat)
  | 0, _ => []
  | fuel + 1, s =>
    match nextTokenStr s with
    | none => []
    | some (t, r) => t :: tokensStrF fuel r

/-- All tokens of a byte stream via the string-buffer tokenizer. -/
def tokensStr (s : List Nat) : List (List Nat) := tokensStrF (s.length + 1) s

/-- The sequence of tokens produced by repeatedly calling `nextToken`. -/
def tokensStreamF : Nat → List Nat → List (List Nat)
  | 0, _ => []
  | fuel + 1, s =>
    match nextToken s with
    | none => []
    | some (t, r) => t :: tokensStreamF fuel r

/-- All tokens of a byte stream via the raw-stream tokenizer. -/
def tokensStream (s : List Nat) : List (List Nat) := tokensStreamF (s.length + 1) s

/-- Exceptions `std::stoi` can throw. -/
inductive StoiErr where
  | invalidArgument
  | outOfRange
  deriving DecidableEq, Repr

/-- Value of a string of ASCII digits. -/
def digitsVal (ds : List Nat) : Nat := ds.foldl (fun acc c => acc * 10 + (c - 48)) 0

/-- `std::stoi` (base 10): skip leading `isspace` bytes, consume one optional
sign, consume the maximal run of decimal digits.  No digit at all throws
`std::invalid_argument`; a value outside the 32-bit `int` range throws
`std::out_of_range`.  Trailing non-digit bytes are ignored. -/
def stoi (s : List Nat) : Except StoiErr Int :=
  let s1 := s.dropWhile isspaceB
  let signed : Bool × List Nat :=
    match s1 with
    | c :: r =>
      if c == 45 then (true, r) else if c == 43 then (false, r) else (false, c :: r)
    | [] => (false, [])
  let ds := signed.2.takeWhile isDigitB
  if ds.isEmpty then .error .invalidArgument
  else
    let v : Int := (if signed.1 then -1 else 1) * (digitsVal ds : Int)
    if v < -2147483648 ∨ 2147483647 < v then .error .outOfRange
    else .ok v

/-- One pixel of the destination buffer: the four bytes of the packed 32-bit
color value, in memory order.  main.cpp writes through a `uint8_t*` into the
`uint32_t`, so `b0`..`b3` are exactly `ptr[0]`..`ptr[3]`. -/
structure Pix where
  b0 : Nat
  b1 : Nat
  b2 : Nat
  b3 : Nat
  deriving DecidableEq, Repr

/-- main.cpp lines 22-26, `struct Image`. -/
structure Image where
  width : Int
  height : Int
  pixels : List Pix
  deriving DecidableEq, Repr

/-- The default-constructed Image (width = height = 0, no pixels). -/
def emptyImg : Image := { width := 0, height := 0, pixels := [] }

/-- `static_cast<uint8_t>(int)`: reduction modulo 2^8 (Int `%` is the
Euclidean mod, matching the C++ unsigned-conversion rule). -/
def toByte (v : Int) : Nat := (v % 256).toNat

/-- `std::min<int>(255, std::max<int>(0, v))` (main.cpp lines 211-213,
390-392). -/
def clamp255 (v : Int) : Int := min 255 (max 0 v)

/-- The per-channel rescaling `(v * 255) / maxVal`, applied only when
`maxVal != 255 && maxVal > 0` (main.cpp lines 206-210, 299-303, 384-388).
C++ `int` division truncates toward zero, hence `Int.tdiv`. -/
def rescale (maxVal v : Int) : Int :=
  if maxVal ≠ 255 ∧ 0 < maxVal then Int.tdiv (v * 255) maxVal else v

/-- Pixel stored by both P3 paths: each channel rescaled, clamped into
[0, 255], and written as bytes [Blue, Green, Red, 0]
(main.cpp lines 206-218 and 384-398). -/
def mkPixP3 (maxVal r g b : Int) : Pix :=
  { b0 := toByte (clamp255 (rescale maxVal b)),
    b1 := toByte (clamp255 (rescale maxVal g)),
    b2 := toByte (clamp255 (rescale maxVal r)),
    b3 := 0 }

/-- Pixel stored by the P6 path: each channel rescaled and written as bytes
[Blue, Green, Red, 0] with NO clamping (main.cpp lines 296-308 have no
min/max before the `uint8_t` casts). -/
def mkPixP6 (maxVal r g b : Int) : Pix :=
  { b0 := toByte (rescale maxVal b),
    b1 := toByte (rescale maxVal g),
    b2 := toByte (rescale maxVal r),
    b3 := 0 }

/-- The distinct error exits of LoadPPM, one per error message printed. -/
inductive ErrKind where
  | emptyFile
  | badMagic
  | missingWidth
  | missingHeight
  | missingMaxVal
  | badDims
  | badMaxVal
  | invalidDims
  | tooLarge
  | p6Header
  | sepEOF
  | truncated
  | truncatedBin
  | badPixel
  deriving DecidableEq, Repr

/-- Outcome of a call to LoadPPM: a normal return of an Image on success,
a normal return of an Image together with the error message printed on an
error exit, or an uncaught C++ exception propagating out of the function. -/
inductive LoadRes where
  | ok (img : Image)
  | err (img : Image) (e : ErrKind)
  | thrown
  deriving DecidableEq, Repr

/-- The size-cap test `pixelCount == 0 || pixelCount > 100000000` of main.cpp
lines 196, 284 and 354, on the exact (uint64_t) pixel count. -/
def sizeCheckFails (pixelCount : Nat) : Bool :=
  pixelCount == 0 || pixelCount > 100000000

/-- Magic token "P3". -/
def strP3 : List Nat := [80, 51]

/-- Magic token "P6". -/
def strP6 : List Nat := [80, 54]

/-- main.cpp lines 199-219: the string-parser pixel loop.  Reads three tokens
per pixel (truncation clears the image to empty/zero, line 201), re-normalizes
them (line 202), and then calls `std::stoi` WITHOUT a try/catch (lines
203-205), so a non-numeric token makes the exception escape LoadPPM. -/
def readPixelsP3Str (maxVal w h : Int) : Nat → List Nat → List Pix → LoadRes
  | 0, _, acc => .ok { width := w, height := h, pixels := acc.reverse }
  | n + 1, s, acc =>
    match nextTokenStr s with
    | none => .err emptyImg .truncated
    | some (sr, s1) =>
      match nextTokenStr s1 with
      | none => .err emptyImg .truncated
      | some (sg, s2) =>
        match nextTokenStr s2 with
        | none => .err emptyImg .truncated
        | some (sb, s3) =>
          match stoi (normalizeToken sr), stoi (normalizeToken sg), stoi (normalizeToken sb) with
          | .ok r, .ok g, .ok b =>
            readPixelsP3Str maxVal w h n s3 (mkPixP3 maxVal r g b :: acc)
          | _, _, _ => .thrown

/-- main.cpp lines 174-222: the string-parser branch (`useStringParser`),
applied to the UTF-8 text buffer.  Accepts only magic "P3".  Width is assigned
before height and height before maxVal, so a stoi failure on a later field
leaves the earlier fields already stored in the returned Image. -/
def stringParse (body : List Nat) : LoadRes :=
  match nextTokenStr body with
  | none => .err emptyImg .emptyFile
  | some (tok0, r1) =>
    if normalizeToken tok0 == strP3 then
      match nextTokenStr r1 with
      | none => .err emptyImg .missingWidth
      | some (wtok, r2) =>
        match nextTokenStr r2 with
        | none => .err emptyImg .missingHeight
        | some (htok, r3) =>
          match nextTokenStr r3 with
          | none => .err emptyImg .missingMaxVal
          | some (mtok, r4) =>
            match stoi (normalizeToken wtok) with
            | .error _ => .err emptyImg .badDims
            | .ok w =>
              match stoi (normalizeToken htok) with
              | .error _ => .err { width := w, height := 0, pixels := [] } .badDims
              | .ok h =>
                match stoi (normalizeToken mtok) with
                | .error _ => .err { width := w, height := h, pixels := [] } .badMaxVal
                | .ok maxVal =>
                  if w ≤ 0 ∨ h ≤ 0 then
                    .err { width := w, height := h, pixels := [] } .invalidDims
                  else
                    if sizeCheckFails (w.toNat * h.toNat) then
                      .err { width := w, height := h, pixels := [] } .tooLarge
                    else readPixelsP3Str maxVal w h (w.toNat * h.toNat) r4 []
    else .err emptyImg .badMagic

/-- main.cpp lines 259-263: strip a UTF-8 BOM from the front of the magic
token (redundant after `normalizeToken`, kept for fidelity). -/
def stripBom3 (t : List Nat) : List Nat :=
  match t with
  | b0 :: b1 :: b2 :: rest =>
    if b0 == 239 && b1 == 187 && b2 == 191 then rest else t
  | _ => t

/-- main.cpp lines 292-309: the P6 binary pixel loop.  Reads exactly 3 raw
bytes per pixel; a short read clears the image (line 295); channels are
rescaled but NOT clamped before the `uint8_t` stores. -/
def readPixelsP6 (maxVal w h : Int) : Nat → List Nat → List Pix → LoadRes
  | 0, _, acc => .ok { width := w, height := h, pixels := acc.reverse }
  | n + 1, s, acc =>
    match s with
    | r :: g :: b :: s3 =>
      readPixelsP6 maxVal w h n s3
        (mkPixP6 maxVal (Int.ofNat r) (Int.ofNat g) (Int.ofNat b) :: acc)
    | _ => .err emptyImg .truncatedBin

/-- main.cpp lines 265-313: the P6 branch of the raw-stream parser.  Note that
the invalid-dimension and size-cap failures (lines 282-284) return WITHOUT
resetting the already-assigned width/height, and that exactly one separator
byte is consumed before the binary data (lines 287-288). -/
def parseP6Header (s : List Nat) : LoadRes :=
  match nextToken s with
  | none => .err emptyImg .p6Header
  | some (wstr, s1) =>
    match nextToken s1 with
    | none => .err emptyImg .p6Header
    | some (hstr, s2) =>
      match nextToken s2 with
      | none => .err emptyImg .p6Header
      | some (mstr, s3) =>
        match stoi (normalizeToken wstr) with
        | .error _ => .err emptyImg .badDims
        | .ok w =>
          match stoi (normalizeToken hstr) with
          | .error _ => .err { width := w, height := 0, pixels := [] } .badDims
          | .ok h =>
            match stoi (normalizeToken mstr) with
            | .error _ => .err { width := w, height := h, pixels := [] } .badMaxVal
            | .ok maxVal =>
              if w ≤ 0 ∨ h ≤ 0 then
                .err { width := w, height := h, pixels := [] } .invalidDims
              else
                if sizeCheckFails (w.toNat * h.toNat) then
                  .err { width := w, height := h, pixels := [] } .tooLarge
                else
                  match s3 with
                  | [] => .err { width := w, height := h, pixels := [] } .sepEOF
                  | _ :: s4 => readPixelsP6 maxVal w h (w.toNat * h.toNat) s4 []

/-- main.cpp lines 363-399: the raw-stream P3 pixel loop.  Unlike the string
path the tokens are NOT re-normalized, and the stoi calls ARE wrapped in
try/catch: a non-numeric token clears the image and returns (lines 373-382). -/
def readPixelsP3Raw (maxVal w h : Int) : Nat → List Nat → List Pix → LoadRes
  | 0, _, acc => .ok { width := w, height := h, pixels := acc.reverse }
  | n + 1, s, acc =>
    match nextToken s with
    | none => .err emptyImg .truncated
    | some (sr, s1) =>
      match nextToken s1 with
      | none => .err emptyImg .truncated
      | some (sg, s2) =>
        match nextToken s2 with
        | none => .err emptyImg .truncated
        | some (sb, s3) =>
          match stoi sr, stoi sg, stoi sb with
          | .ok r, .ok g, .ok b =>
            readPixelsP3Raw maxVal w h n s3 (mkPixP3 maxVal r g b :: acc)
          | _, _, _ => .err emptyImg .badPixel

/-- main.cpp lines 320-402: the P3 branch of the raw-stream parser.  Here the
invalid-dimension and size-cap failures DO reset width/height to zero
(lines 347-358). -/
def parseP3Header (s : List Nat) : LoadRes :=
  match nextToken s with
  | none => .err emptyImg .missingWidth
  | some (wtoken, s1) =>
    match nextToken s1 with
    | none => .err emptyImg .missingHeight
    | some (htoken, s2) =>
      match nextToken s2 with
      | none => .err emptyImg .missingMaxVal
      | some (mtoken, s3) =>
        match stoi (normalizeToken wtoken) with
        | .error _ => .err emptyImg .badDims
        | .ok w =>
          match stoi (normalizeToken htoken) with
          | .error _ => .err { width := w, height := 0, pixels := [] } .badDims
          | .ok h =>
            match stoi (normalizeToken mtoken) with
            | .error _ => .err { width := w, height := h, pixels := [] } .badMaxVal
            | .ok maxVal2 =>
              if w ≤ 0 ∨ h ≤ 0 then .err emptyImg .invalidDims
              else
                if sizeCheckFails (w.toNat * h.toNat) then .err emptyImg .tooLarge
                else readPixelsP3Raw maxVal2 w h (w.toNat * h.toNat) s3 []

/-- main.cpp lines 225-403: the raw-stream parser.  The stream is rewound to
offset 0 (line 251), so it sees the whole input.  Magic "P6" selects the
binary branch, "P3" the ASCII branch, anything else is a format error. -/
def rawParse (input : List Nat) : LoadRes :=
  match nextToken input with
  | none => .err emptyImg .emptyFile
  | some (tok0, r1) =>
    if stripBom3 (normalizeToken tok0) == strP6 then parseP6Header r1
    else if stripBom3 (normalizeToken tok0) == strP3 then parseP3Header r1
    else .err emptyImg .badMagic

/-- UTF-16LE byte pairs to 16-bit code units: main.cpp lines 111-114,
`wc = raw[i] | (raw[i+1] << 8)` for i = 2, 4, ... while i+1 < size
(the caller passes the stream with its 2-byte BOM still in front, hence the
`drop 2` at the call site; an odd trailing byte is ignored). -/
def pairsLE : List Nat → List Nat
  | a :: b :: rest => (a + 256 * b) :: pairsLE rest
  | _ => []

/-- UTF-16BE byte pairs to 16-bit code units: main.cpp lines 132-134. -/
def pairsBE : List Nat → List Nat
  | a :: b :: rest => (256 * a + b) :: pairsBE rest
  | _ => []

/-- UTF-8 encoding of a single Unicode code point below 0x110000. -/
def encodeCP (c : Nat) : List Nat :=
  if c < 128 then [c]
  else if c < 2048 then [192 + c / 64, 128 + c % 64]
  else if c < 65536 then [224 + c / 4096, 128 + (c / 64) % 64, 128 + c % 64]
  else [240 + c / 262144, 128 + (c / 4096) % 64, 128 + (c / 64) % 64, 128 + c % 64]

/-- Modelled from the spec: the wide-to-narrow conversion
`WideCharToMultiByte(CP_UTF8, 0, ...)` (main.cpp lines 117-121, 137-141) is a
Windows API whose body is not in this repository.  Per its documented default
behavior it UTF-8-encodes each UTF-16 code unit, combining surrogate pairs
and replacing unpaired surrogates with U+FFFD.  Every input the theorems below
feed it is plain ASCII, where any correct conversion is byte-identity. -/
def wideToUtf8 : List Nat → List Nat
  | [] => []
  | u :: rest =>
    if 55296 ≤ u ∧ u ≤ 56319 then
      match rest with
      | v :: rest2 =>
        if 56320 ≤ v ∧ v ≤ 57343 then
          encodeCP (65536 + (u - 55296) * 1024 + (v - 56320)) ++ wideToUtf8 rest2
        else encodeCP 65533 ++ wideToUtf8 (v :: rest2)
      | [] => encodeCP 65533
    else if 56320 ≤ u ∧ u ≤ 57343 then encodeCP 65533 ++ wideToUtf8 rest
    else encodeCP u ++ wideToUtf8 rest

/-- main.cpp lines 57-403, `LoadPPM`, on the byte stream of the file.  The
first four bytes (zero-padded if the stream is shorter, line 67) select the
encoding path: FF FE / FE FF decode the whole stream as UTF-16 to a UTF-8
text buffer and use the string parser (only if the wide buffer is non-empty
and the conversion produced output, lines 116-126 and 136-145); EF BB BF
hands the bytes up to the first NUL, minus the 3-byte BOM, to the string
parser (lines 148-156: `std::getline(file, rest, 0)` stops at the first NUL
byte); anything else uses the raw-stream parser. -/
def LoadPPM (input : List Nat) : LoadRes :=
  if input.getD 0 0 == 255 && input.getD 1 0 == 254 then
    if !(pairsLE (input.drop 2)).isEmpty
        && !(wideToUtf8 (pairsLE (input.drop 2))).isEmpty then
      stringParse (wideToUtf8 (pairsLE (input.drop 2)))
    else rawParse input
  else if input.getD 0 0 == 254 && input.getD 1 0 == 255 then
    if !(pairsBE (input.drop 2)).isEmpty
        && !(wideToUtf8 (pairsBE (input.drop 2))).isEmpty then
      stringParse (wideToUtf8 (pairsBE (input.drop 2)))
    else rawParse input
  else if input.getD 0 0 == 239 && input.getD 1 0 == 187 && input.getD 2 0 == 191 then
    if (input.takeWhile (fun b => !(b == 0))).length ≥ 3 then
      stringParse ((input.takeWhile (fun b => !(b == 0))).drop 3)
    else stringParse (input.takeWhile (fun b => !(b == 0)))
  else rawParse input

/-- A byte the token-equivalence theorem allows: whitespace or printable
ASCII strictly between 0x20 and 0x7F. -/
def goodByteB (c : Nat) : Bool := isspaceB c || (32 < c && c < 127)

/-- All bytes of the stream are whitespace or printable ASCII. -/
def goodBytesB (l : List Nat) : Bool := l.all goodByteB

/-- Every '#' byte in the stream immediately follows a whitespace byte (a '#'
at the very start of the stream is also allowed, since the test only
constrains adjacent pairs). -/
def hashOkB : List Nat → Bool
  | a :: b :: r => (!(b == 35) || isspaceB a) && hashOkB (b :: r)
  | _ => true

/-- A well-formed stored pixel: each of the three channel bytes is an actual
byte value and the padding byte is zero. -/
def goodPix (p : Pix) : Prop := p.b0 < 256 ∧ p.b1 < 256 ∧ p.b2 < 256 ∧ p.b3 = 0

/- ------------------------------------------------------------------ -/
/- Supporting lemmas                                                   -/
/- ------------------------------------------------------------------ -/

theorem normStep_length (s t : List Nat) (h : normStep s = some t) :
    t.length < s.length := by
  unfold normStep at h
  repeat' split at h
  all_goals simp_all
  all_goals omega

theorem normalizeToken_suffix (s : List Nat) : normalizeToken s <:+ s := by
  induction s using normalizeToken.induct with
  | case1 => exact List.suffix_rfl
  | case2 a h1 b c r2 h2 ih =>
      simp only [normalizeToken, h1, h2, if_true]
      exact ih.trans ⟨[a, b, c], rfl⟩
  | case3 a h1 b c r2 h2 =>
      simp only [normalizeToken, h1, h2, if_true, if_false]
      exact List.suffix_rfl
  | case4 a r h1 hsh =>
      rcases r with _ | ⟨b, _ | ⟨c, r2⟩⟩
      · simp only [normalizeToken, h1, if_true]; exact List.suffix_rfl
      · simp only [normalizeToken, h1, if_true]; exact List.suffix_rfl
      · exact absurd rfl (hsh b c r2)
  | case5 a h1 h2 b r2 h3 ih =>
      simp only [Bool.not_eq_true] at h1
      rw [normalizeToken.eq_def]
      simp only [h1, h2, h3, Bool.false_eq_true, if_false, if_true]
      exact ih.trans ⟨[a, b], rfl⟩
  | case6 a h1 h2 b r2 h3 =>
      simp only [Bool.not_eq_true] at h1 h3
      rw [normalizeToken.eq_def]
      simp only [h1, h2, h3, Bool.false_eq_true, if_false, if_true]
      exact List.suffix_rfl
  | case7 a r h1 h2 hsh =>
      rcases r with _ | ⟨b, r2⟩
      · simp only [Bool.not_eq_true] at h1
        rw [normalizeToken.eq_def]
        simp only [h1, h2, Bool.false_eq_true, if_false, if_true]
        exact List.suffix_rfl
      · exact absurd rfl (hsh b r2)
  | case8 a r h1 h2 hle ih =>
      simp only [Bool.not_eq_true] at h1 h2
      rw [normalizeToken.eq_def]
      simp only [h1, h2, hle, Bool.false_eq_true, if_false, if_true]
      rcases r with _ | ⟨b, r2⟩
      · exact ih.trans ⟨[a], rfl⟩
      · exact ih.trans ⟨[a], rfl⟩
  | case9 a r h1 h2 hle =>
      simp only [Bool.not_eq_true] at h1 h2
      rw [normalizeToken.eq_def]
      simp only [h1, h2, hle, Bool.false_eq_true, if_false]
      exact List.suffix_rfl

theorem normalizeToken_id_of_printable (a : Nat) (r : List Nat)
    (h1 : 32 < a) (h2 : a < 127) : normalizeToken (a :: r) = a :: r := by
  have e1 : (a == 239) = false := by simp; omega
  have e2 : (a == 194) = false := by simp; omega
  have e3 : ¬ a ≤ 32 := by omega
  rw [normalizeToken.eq_def]
  simp only [e1, e2, e3, Bool.false_eq_true, if_false]

theorem hashOkB_tail (a : Nat) (r : List Nat) (h : hashOkB (a :: r) = true) :
    hashOkB r = true := by
  cases r with
  | nil => rfl
  | cons b r2 =>
    rw [hashOkB] at h
    simp at h
    exact h.2

theorem hashOkB_suffix (l s : List Nat) (hs : s <:+ l) (h : hashOkB l = true) :
    hashOkB s = true := by
  obtain ⟨t, ht⟩ := hs
  induction t generalizing l with
  | nil => simpa [← ht] using h
  | cons a t ih =>
    cases l with
    | nil => cases ht
    | cons b l2 =>
      injection ht with h1 h2
      exact ih l2 (hashOkB_tail b l2 h) h2

theorem goodBytesB_suffix (l s : List Nat) (hs : s <:+ l) (h : goodBytesB l = true) :
    goodBytesB s = true := by
  rw [goodBytesB, List.all_eq_true] at h ⊢
  exact fun x hx => h x (hs.subset hx)

theorem goodByte_not_space (c : Nat) (hg : goodByteB c = true) (hns : isspaceB c = false) :
    32 < c ∧ c < 127 := by
  rw [goodByteB, Bool.or_eq_true, hns] at hg
  simp only [Bool.false_eq_true, false_or, Bool.and_eq_true, decide_eq_true_eq] at hg
  exact hg

/-- Inside a run of non-whitespace bytes governed by `hashOkB`, no byte after
the first can be '#', so the token-collection predicates of the two tokenizers
take and drop the same bytes. -/
theorem run_take_drop_eq (c : Nat) (rest : List Nat)
    (hc35 : (c == 35) = false) (hsp : isspaceB c = false)
    (hh : hashOkB (c :: rest) = true) :
    (c :: rest).takeWhile (fun b => !isspaceB b)
      = (c :: rest).takeWhile (fun b => !isspaceB b && !(b == 35)) ∧
    (c :: rest).dropWhile (fun b => !isspaceB b)
      = (c :: rest).dropWhile (fun b => !isspaceB b && !(b == 35)) := by
  induction rest generalizing c with
  | nil =>
    constructor <;> simp [List.takeWhile, List.dropWhile, hsp, hc35]
  | cons d rest2 ih =>
    by_cases hd : isspaceB d = true
    · constructor
      · simp [List.takeWhile_cons, hsp, hc35, hd]
      · simp [List.dropWhile_cons, hsp, hc35, hd]
    · have hd' : isspaceB d = false := by rwa [Bool.not_eq_true] at hd
      have hd35 : (d == 35) = false := by
        rw [hashOkB, Bool.and_eq_true, Bool.or_eq_true] at hh
        rcases hh.1 with h' | h'
        · rwa [Bool.not_eq_true'] at h'
        · rw [hsp] at h'; cases h'
      have hh2 : hashOkB (d :: rest2) = true := hashOkB_tail c (d :: rest2) hh
      obtain ⟨iht, ihd⟩ := ih d hd35 hd' hh2
      have hp1 : (!isspaceB c) = true := by rw [hsp]; rfl
      have hp2 : (!isspaceB c && !(c == 35)) = true := by rw [hsp, hc35]; rfl
      constructor
      · rw [List.takeWhile_cons, if_pos hp1]
        conv_rhs => rw [List.takeWhile_cons]
        rw [if_pos hp2]
        exact congrArg (c :: ·) iht
      · rw [List.dropWhile_cons, if_pos hp1]
        conv_rhs => rw [List.dropWhile_cons]
        rw [if_pos hp2]
        exact ihd

/-- On streams of whitespace/printable-ASCII bytes in which every '#' starts
its own token, the two token readers agree call-by-call, in both the
outside-comment and inside-comment states. -/
theorem nextTokenAux_agree (l : List Nat) :
    ∀ inC : Bool, goodBytesB l = true → hashOkB l = true →
      nextTokenStrAux l inC = nextTokenAux l inC := by
  induction l with
  | nil => intro inC _ _; rfl
  | cons c rest ih =>
    intro inC hg hh
    have hgrest : goodBytesB rest = true :=
      goodBytesB_suffix _ _ ⟨[c], rfl⟩ hg
    have hhrest : hashOkB rest = true := hashOkB_tail c rest hh
    have hgc : goodByteB c = true := by
      rw [goodBytesB, List.all_eq_true] at hg
      exact hg c (List.mem_cons_self c rest)
    cases inC with
    | true =>
      rw [nextTokenStrAux, nextTokenAux]
      by_cases h10 : (c == 10) = true
      · rw [if_pos h10, if_pos h10]; exact ih false hgrest hhrest
      · rw [if_neg h10, if_neg h10]; exact ih true hgrest hhrest
    | false =>
      rw [nextTokenStrAux, nextTokenAux]
      by_cases hsp : isspaceB c = true
      · rw [if_pos hsp, if_pos hsp]; exact ih false hgrest hhrest
      · rw [if_neg hsp, if_neg hsp]
        by_cases h35 : (c == 35) = true
        · rw [if_pos h35, if_pos h35]; exact ih true hgrest hhrest
        · rw [if_neg h35, if_neg h35]
          have hsp' : isspaceB c = false := by rwa [Bool.not_eq_true] at hsp
          have h35' : (c == 35) = false := by rwa [Bool.not_eq_true] at h35
          obtain ⟨htk, hdr⟩ := run_take_drop_eq c rest h35' hsp' hh
          rw [htk, hdr]
          obtain ⟨hlo, hhi⟩ := goodByte_not_space c hgc hsp'
          have hstep : (c :: rest).takeWhile (fun b => !isspaceB b && !(b == 35))
              = c :: rest.takeWhile (fun b => !isspaceB b && !(b == 35)) := by
            rw [List.takeWhile_cons]
            simp only [hsp', h35', Bool.not_false, Bool.and_self, if_true]
          rw [hstep, normalizeToken_id_of_printable c _ hlo hhi]

theorem nextToken_some_suffix (l : List Nat) :
    ∀ (inC : Bool) (t r : List Nat), nextTokenAux l inC = some (t, r) → r <:+ l := by
  induction l with
  | nil => intro inC t r h; cases h
  | cons c rest ih =>
    intro inC t r h
    have hsfx : rest <:+ c :: rest := ⟨[c], rfl⟩
    cases inC with
    | true =>
      rw [nextTokenAux] at h
      by_cases h10 : (c == 10) = true
      · rw [if_pos h10] at h; exact (ih false t r h).trans hsfx
      · rw [if_neg h10] at h; exact (ih true t r h).trans hsfx
    | false =>
      rw [nextTokenAux] at h
      by_cases hsp : isspaceB c = true
      · rw [if_pos hsp] at h; exact (ih false t r h).trans hsfx
      · rw [if_neg hsp] at h
        by_cases h35 : (c == 35) = true
        · rw [if_pos h35] at h; exact (ih true t r h).trans hsfx
        · rw [if_neg h35] at h
          simp only [Option.some.injEq, Prod.mk.injEq] at h
          rw [← h.2]
          exact List.dropWhile_suffix _

theorem tokensF_agree (fuel : Nat) :
    ∀ l : List Nat, goodBytesB l = true → hashOkB l = true →
      tokensStrF fuel l = tokensStreamF fuel l := by
  induction fuel with
  | zero => intro l _ _; rfl
  | succ fuel ih =>
    intro l hg hh
    rw [tokensStrF, tokensStreamF, nextTokenStr, nextToken, nextTokenAux_agree l false hg hh]
    cases he : nextTokenAux l false with
    | none => rfl
    | some tr =>
      obtain ⟨t, r⟩ := tr
      have hs : r <:+ l := nextToken_some_suffix l false t r he
      show t :: tokensStrF fuel r = t :: tokensStreamF fuel r
      rw [ih r (goodBytesB_suffix l r hs hg) (hashOkB_suffix l r hs hh)]

theorem toByte_lt (v : Int) : toByte v < 256 := by
  unfold toByte
  omega

theorem mkPixP3_good (maxVal r g b : Int) : goodPix (mkPixP3 maxVal r g b) :=
  ⟨toByte_lt _, toByte_lt _, toByte_lt _, rfl⟩

theorem mkPixP6_good (maxVal r g b : Int) : goodPix (mkPixP6 maxVal r g b) :=
  ⟨toByte_lt _, toByte_lt _, toByte_lt _, rfl⟩

theorem readPixelsP3Str_err (maxVal w h : Int) (n : Nat) (s : List Nat) (acc : List Pix)
    (img : Image) (e : ErrKind) (hr : readPixelsP3Str maxVal w h n s acc = .err img e) :
    img = emptyImg ∧ e = .truncated := by
  induction n generalizing s acc with
  | zero => simp [readPixelsP3Str] at hr
  | succ n ih =>
    rw [readPixelsP3Str] at hr
    repeat' split at hr
    all_goals first
      | (cases hr; exact ⟨rfl, rfl⟩)
      | exact ih _ _ hr
      | cases hr

theorem readPixelsP6_err (maxVal w h : Int) (n : Nat) (s : List Nat) (acc : List Pix)
    (img : Image) (e : ErrKind) (hr : readPixelsP6 maxVal w h n s acc = .err img e) :
    img = emptyImg ∧ e = .truncatedBin := by
  induction n generalizing s acc with
  | zero => simp [readPixelsP6] at hr
  | succ n ih =>
    rcases s with _ | ⟨r, _ | ⟨g, _ | ⟨b, s3⟩⟩⟩ <;>
      rw [readPixelsP6.eq_def] at hr
    · cases hr; exact ⟨rfl, rfl⟩
    · cases hr; exact ⟨rfl, rfl⟩
    · cases hr; exact ⟨rfl, rfl⟩
    · exact ih _ _ hr

theorem readPixelsP3Raw_err (maxVal w h : Int) (n : Nat) (s : List Nat) (acc : List Pix)
    (img : Image) (e : ErrKind) (hr : readPixelsP3Raw maxVal w h n s acc = .err img e) :
    img = emptyImg ∧ (e = .truncated ∨ e = .badPixel) := by
  induction n generalizing s acc with
  | zero => simp [readPixelsP3Raw] at hr
  | succ n ih =>
    rw [readPixelsP3Raw] at hr
    repeat' split at hr
    all_goals first
      | (cases hr; exact ⟨rfl, Or.inl rfl⟩)
      | (cases hr; exact ⟨rfl, Or.inr rfl⟩)
      | exact ih _ _ hr

theorem readPixelsP3Str_ok (maxVal w h : Int) (n : Nat) (s : List Nat) (acc : List Pix)
    (img : Image) (hr : readPixelsP3Str maxVal w h n s acc = .ok img)
    (hacc : ∀ p ∈ acc, goodPix p) : ∀ p ∈ img.pixels, goodPix p := by
  induction n generalizing s acc with
  | zero =>
    rw [readPixelsP3Str] at hr
    cases hr
    intro p hp
    exact hacc p (List.mem_reverse.mp hp)
  | succ n ih =>
    rw [readPixelsP3Str] at hr
    repeat' split at hr
    all_goals first
      | cases hr
      | exact ih _ _ hr (fun p hp => by
          rcases List.mem_cons.mp hp with h' | h'
          · rw [h']; exact mkPixP3_good _ _ _ _
          · exact hacc p h')

theorem readPixelsP6_ok (maxVal w h : Int) (n : Nat) (s : List Nat) (acc : List Pix)
    (img : Image) (hr : readPixelsP6 maxVal w h n s acc = .ok img)
    (hacc : ∀ p ∈ acc, goodPix p) : ∀ p ∈ img.pixels, goodPix p := by
  induction n generalizing s acc with
  | zero =>
    rw [readPixelsP6] at hr
    cases hr
    intro p hp
    exact hacc p (List.mem_reverse.mp hp)
  | succ n ih =>
    rcases s with _ | ⟨r, _ | ⟨g, _ | ⟨b, s3⟩⟩⟩ <;>
      rw [readPixelsP6.eq_def] at hr
    · cases hr
    · cases hr
    · cases hr
    · exact ih _ _ hr (fun p hp => by
        rcases List.mem_cons.mp hp with h' | h'
        · rw [h']; exact mkPixP6_good _ _ _ _
        · exact hacc p h')

theorem readPixelsP3Raw_ok (maxVal w h : Int) (n : Nat) (s : List Nat) (acc : List Pix)
    (img : Image) (hr : readPixelsP3Raw maxVal w h n s acc = .ok img)
    (hacc : ∀ p ∈ acc, goodPix p) : ∀ p ∈ img.pixels, goodPix p := by
  induction n generalizing s acc with
  | zero =>
    rw [readPixelsP3Raw] at hr
    cases hr
    intro p hp
    exact hacc p (List.mem_reverse.mp hp)
  | succ n ih =>
    rw [readPixelsP3Raw] at hr
    repeat' split at hr
    all_goals first
      | cases hr
      | exact ih _ _ hr (fun p hp => by
          rcases List.mem_cons.mp hp with h' | h'
          · rw [h']; exact mkPixP3_good _ _ _ _
          · exact hacc p h')

theorem stringParse_err (body : List Nat) (img : Image) (e : ErrKind)
    (h : stringParse body = .err img e) :
    img.pixels = [] ∧ ((e = .truncated ∨ e = .truncatedBin ∨ e = .badPixel) → img = emptyImg) := by
  rw [stringParse] at h
  repeat' split at h
  all_goals try (cases h; exact ⟨rfl, fun hd => by rcases hd with h' | h' | h' <;> cases h'⟩)
  all_goals obtain ⟨h1, _⟩ := readPixelsP3Str_err _ _ _ _ _ _ _ _ h
  all_goals exact ⟨by rw [h1]; rfl, fun _ => h1⟩

theorem stringParse_ok (body : List Nat) (img : Image) (h : stringParse body = .ok img) :
    ∀ p ∈ img.pixels, goodPix p := by
  rw [stringParse] at h
  repeat' split at h
  all_goals try cases h
  all_goals exact readPixelsP3Str_ok _ _ _ _ _ _ _ h (fun p hp => absurd hp (List.not_mem_nil p))

theorem parseP6Header_err (s : List Nat) (img : Image) (e : ErrKind)
    (h : parseP6Header s = .err img e) :
    img.pixels = [] ∧ ((e = .truncated ∨ e = .truncatedBin ∨ e = .badPixel) → img = emptyImg) := by
  rw [parseP6Header] at h
  repeat' split at h
  all_goals try (cases h; exact ⟨rfl, fun hd => by rcases hd with h' | h' | h' <;> cases h'⟩)
  all_goals obtain ⟨h1, _⟩ := readPixelsP6_err _ _ _ _ _ _ _ _ h
  all_goals exact ⟨by rw [h1]; rfl, fun _ => h1⟩

theorem parseP6Header_ok (s : List Nat) (img : Image) (h : parseP6Header s = .ok img) :
    ∀ p ∈ img.pixels, goodPix p := by
  rw [parseP6Header] at h
  repeat' split at h
  all_goals try cases h
  all_goals exact readPixelsP6_ok _ _ _ _ _ _ _ h (fun p hp => absurd hp (List.not_mem_nil p))

theorem parseP3Header_err (s : List Nat) (img : Image) (e : ErrKind)
    (h : parseP3Header s = .err img e) :
    img.pixels = [] ∧ ((e = .truncated ∨ e = .truncatedBin ∨ e = .badPixel) → img = emptyImg) := by
  rw [parseP3Header] at h
  repeat' split at h
  all_goals try (cases h; exact ⟨rfl, fun hd => by rcases hd with h' | h' | h' <;> cases h'⟩)
  all_goals obtain ⟨h1, _⟩ := readPixelsP3Raw_err _ _ _ _ _ _ _ _ h
  all_goals exact ⟨by rw [h1]; rfl, fun _ => h1⟩

theorem parseP3Header_ok (s : List Nat) (img : Image) (h : parseP3Header s = .ok img) :
    ∀ p ∈ img.pixels, goodPix p := by
  rw [parseP3Header] at h
  repeat' split at h
  all_goals try cases h
  all_goals exact readPixelsP3Raw_ok _ _ _ _ _ _ _ h (fun p hp => absurd hp (List.not_mem_nil p))

theorem rawParse_err (input : List Nat) (img : Image) (e : ErrKind)
    (h : rawParse input = .err img e) :
    img.pixels = [] ∧ ((e = .truncated ∨ e = .truncatedBin ∨ e = .badPixel) → img = emptyImg) := by
  rw [rawParse] at h
  repeat' split at h
  all_goals try (cases h; exact ⟨rfl, fun hd => by rcases hd with h' | h' | h' <;> cases h'⟩)
  all_goals try exact parseP6Header_err _ _ _ h
  all_goals exact parseP3Header_err _ _ _ h

theorem rawParse_ok (input : List Nat) (img : Image) (h : rawParse input = .ok img) :
    ∀ p ∈ img.pixels, goodPix p := by
  rw [rawParse] at h
  repeat' split at h
  all_goals try cases h
  all_goals try exact parseP6Header_ok _ _ h
  all_goals exact parseP3Header_ok _ _ h

theorem LoadPPM_err (input : List Nat) (img : Image) (e : ErrKind)
    (h : LoadPPM input = .err img e) :
    img.pixels = [] ∧ ((e = .truncated ∨ e = .truncatedBin ∨ e = .badPixel) → img = emptyImg) := by
  rw [LoadPPM] at h
  repeat' split at h
  all_goals try exact stringParse_err _ _ _ h
  all_goals exact rawParse_err _ _ _ h

theorem LoadPPM_ok_pixels (input : List Nat) (img : Image) (h : LoadPPM input = .ok img) :
    ∀ p ∈ img.pixels, goodPix p := by
  rw [LoadPPM] at h
  repeat' split at h
  all_goals try exact stringParse_ok _ _ h
  all_goals exact rawParse_ok _ _ h

/-- std::stoi on a token made of a non-empty run of decimal digits followed by
arbitrary junk whose first byte is not a digit: the junk is ignored and the
value of the digit run is returned, provided it fits in a 32-bit int. -/
theorem stoi_digits_with_junk (ds junk : List Nat) (hne : ds ≠ [])
    (hds : ∀ d ∈ ds, isDigitB d = true)
    (hj : ∀ j, junk.head? = some j → isDigitB j = false)
    (hfit : (digitsVal ds : Int) ≤ 2147483647) :
    stoi (ds ++ junk) = .ok (digitsVal ds) := by
  obtain ⟨d, ds', rfl⟩ : ∃ d ds', ds = d :: ds' := by
    cases ds with
    | nil => cases hne rfl
    | cons a l => exact ⟨a, l, rfl⟩
  have hd : isDigitB d = true := hds d (List.mem_cons_self d ds')
  have hdnum : 48 ≤ d ∧ d ≤ 57 := by simpa [isDigitB] using hd
  have hdsp : ¬ isspaceB d = true := by simp [isspaceB]; omega
  have h45 : ¬ (d == 45) = true := by simp; omega
  have h43 : ¬ (d == 43) = true := by simp; omega
  have hdrop : ((d :: ds') ++ junk).dropWhile isspaceB = d :: (ds' ++ junk) := by
    rw [List.cons_append, List.dropWhile_cons, if_neg hdsp]
  have hjunk : junk.takeWhile isDigitB = [] := by
    cases junk with
    | nil => rfl
    | cons j js =>
      rw [List.takeWhile_cons, if_neg (by simp [hj j rfl])]
  have htake : (d :: (ds' ++ junk)).takeWhile isDigitB = d :: ds' := by
    rw [List.takeWhile_cons, if_pos (by rw [hd]),
        List.takeWhile_append_of_pos (fun a ha => hds a (List.mem_cons_of_mem d ha)), hjunk,
        List.append_nil]
  have hnonneg : (0 : Int) ≤ (digitsVal (d :: ds') : Int) := Int.ofNat_nonneg _
  rw [stoi]
  simp only [hdrop, if_neg h45, if_neg h43, htake]
  rw [if_neg (by simp), if_neg (by push_cast; omega)]
  norm_num

/- ------------------------------------------------------------------ -/
/- Claim theorems                                                      -/
/- ------------------------------------------------------------------ -/

/-- Claim C1, counterexample: the input "P3\n5 5\nzz\n0" fails (the maxVal
token "zz" is non-numeric, main.cpp line 342), yet the returned Image keeps
the already-parsed width = 5 and height = 5 with empty pixels — contradicting
the claim that every failure returns width == 0 and height == 0. -/
theorem C1_counterexample :
    ∃ img e, LoadPPM (bytes "P3\n5 5\nzz\n0") = .err img e ∧
      img.pixels = [] ∧ img.width ≠ 0 ∧ img.height ≠ 0 :=
  ⟨{ width := 5, height := 5, pixels := [] }, .badMaxVal, by decide, by decide,
    by decide, by decide⟩

/-- Claim C1 as amended: on every failure path the returned Image has empty
pixel storage, and the failures during pixel reading (truncation on either
path, binary short read, non-numeric pixel token on the raw path) also reset
width and height to zero; but header-stage failures after the dimensions were
assigned may return nonzero width/height with empty pixels. -/
theorem C1_empty_pixels_on_failure :
    (∀ input img e, LoadPPM input = .err img e → img.pixels = []) ∧
    (∀ input img e, LoadPPM input = .err img e →
      (e = .truncated ∨ e = .truncatedBin ∨ e = .badPixel) → img = emptyImg) :=
  ⟨fun input img e h => (LoadPPM_err input img e h).1,
   fun input img e h hd => (LoadPPM_err input img e h).2 hd⟩

/-- Claim C1 witness: the amended theorem applied to a concrete truncated
stream. -/
theorem C1_witness : emptyImg.pixels = [] ∧ emptyImg = emptyImg :=
  ⟨C1_empty_pixels_on_failure.1 (bytes "P3 1 1 255") emptyImg .truncated (by decide),
   C1_empty_pixels_on_failure.2 (bytes "P3 1 1 255") emptyImg .truncated (by decide)
     (Or.inl rfl)⟩

/-- Claim C2, counterexample: on the P6 path with maxValue = 1 the channel
byte 255 rescales to (255*255)/1 = 65025, which the claim says is clamped to
255; the code stores it unclamped through a uint8_t cast, so the stored byte
is 65025 mod 256 = 1. -/
theorem C2_counterexample :
    LoadPPM (bytes "P6\n1 1\n1\n" ++ [255, 0, 0])
      = .ok { width := 1, height := 1,
              pixels := [{ b0 := 0, b1 := 0, b2 := 1, b3 := 0 }] } ∧
    clamp255 (rescale 1 255) = 255 ∧ (1 : Nat) ≠ 255 :=
  ⟨by decide, by decide, by decide⟩

/-- Claim C2 as amended: on the P3 paths each decoded channel is rescaled by
truncating integer division and clamped into [0,255] (witnessed by the spec's
own 127 scenario and by a clamp-to-255 scenario); on the P6 path the rescaled
value is stored without clamping, reduced mod 256 by the byte cast (byte 200
at maxValue 100 stores 510 mod 256 = 254); stored channel bytes are always
byte values. -/
theorem C2_rescale_clamp :
    LoadPPM (bytes "P3\n1 1\n100\n50 50 50\n")
      = .ok { width := 1, height := 1,
              pixels := [{ b0 := 127, b1 := 127, b2 := 127, b3 := 0 }] } ∧
    LoadPPM (bytes "P3\n1 1\n100\n200 0 0\n")
      = .ok { width := 1, height := 1,
              pixels := [{ b0 := 0, b1 := 0, b2 := 255, b3 := 0 }] } ∧
    LoadPPM (bytes "P6\n1 1\n100\n" ++ [200, 0, 0])
      = .ok { width := 1, height := 1,
              pixels := [{ b0 := 0, b1 := 0, b2 := 254, b3 := 0 }] } ∧
    (∀ input img, LoadPPM input = .ok img →
      ∀ p ∈ img.pixels, p.b0 < 256 ∧ p.b1 < 256 ∧ p.b2 < 256) :=
  ⟨by decide, by decide, by decide,
   fun input img h p hp =>
     ⟨(LoadPPM_ok_pixels input img h p hp).1, (LoadPPM_ok_pixels input img h p hp).2.1,
      (LoadPPM_ok_pixels input img h p hp).2.2.1⟩⟩

/-- Claim C2 witness: the universal byte-range part applied to a decoded
pixel of the spec's 127 scenario. -/
theorem C2_witness :
    (Pix.mk 127 127 127 0).b0 < 256 ∧ (Pix.mk 127 127 127 0).b1 < 256 ∧
      (Pix.mk 127 127 127 0).b2 < 256 :=
  C2_rescale_clamp.2.2.2 (bytes "P3\n1 1\n100\n50 50 50\n")
    { width := 1, height := 1, pixels := [{ b0 := 127, b1 := 127, b2 := 127, b3 := 0 }] }
    (by decide) (Pix.mk 127 127 127 0) (by decide)

/-- Claim C3, counterexample: a UTF-8-BOM-prefixed, otherwise valid P6
document is rejected with the magic format error (the string-parser path,
main.cpp line 176, accepts only "P3"), contradicting the claim that P6 is
accepted on every encoding path. -/
theorem C3_counterexample :
    LoadPPM ([239, 187, 191] ++ (bytes "P6\n1 1\n255\n" ++ [1, 2, 3]))
      = .err emptyImg .badMagic := by decide

/-- Claim C3 as amended: after a BOM (UTF-8 or UTF-16) only magic "P3" is
accepted — a BOM-wrapped P6 document fails with the magic format error —
while on the raw path both "P3" and "P6" are accepted and any other magic
fails with the magic format error. -/
theorem C3_magic_by_path :
    LoadPPM ([239, 187, 191] ++ bytes "P3\n1 1\n255\n9 8 7")
      = .ok { width := 1, height := 1,
              pixels := [{ b0 := 7, b1 := 8, b2 := 9, b3 := 0 }] } ∧
    LoadPPM ([239, 187, 191] ++ (bytes "P6\n2 2\n255\n" ++ [5, 5, 5]))
      = .err emptyImg .badMagic ∧
    LoadPPM ([255, 254] ++ (bytes "P3\n1 1\n255\n9 8 7").foldr (fun c acc => c :: 0 :: acc) [])
      = .ok { width := 1, height := 1,
              pixels := [{ b0 := 7, b1 := 8, b2 := 9, b3 := 0 }] } ∧
    LoadPPM (bytes "P6\n1 1\n255\n" ++ [9, 8, 7])
      = .ok { width := 1, height := 1,
              pixels := [{ b0 := 7, b1 := 8, b2 := 9, b3 := 0 }] } ∧
    LoadPPM (bytes "P7\n1 1\n255\n") = .err emptyImg .badMagic :=
  ⟨by decide, by decide, by decide, by decide, by decide⟩

/-- Claim C4: on the BOM-wrapped string-parser path a non-numeric pixel token
reaches the unguarded std::stoi calls of main.cpp lines 203-205, and the
std::invalid_argument exception escapes LoadPPM instead of producing the
empty/zero-Image error return the claim requires. -/
theorem C4_uncaught_stoi_escapes :
    LoadPPM ([239, 187, 191] ++ bytes "P3\n1 1\n255\nx 0 0") = .thrown := by decide

/-- Claim C5, counterexample: on the stream "12#x\n34" the string-buffer
tokenizer returns the token "12#x" whole, while the raw-stream tokenizer stops
the token at the '#' and discards "#x" as a comment — the two token sequences
differ. -/
theorem C5_counterexample :
    tokensStr (bytes "12#x\n34") = [[49, 50, 35, 120], [51, 52]] ∧
    tokensStream (bytes "12#x\n34") = [[49, 50], [51, 52]] ∧
    tokensStr (bytes "12#x\n34") ≠ tokensStream (bytes "12#x\n34") :=
  ⟨by decide, by decide, by decide⟩

/-- Claim C5 as amended: the two tokenizers produce identical token sequences
on every stream of whitespace and printable-ASCII bytes in which each '#'
immediately follows whitespace (or starts the stream), i.e. where no '#' is
attached mid-token; when a '#' is attached mid-token the stream tokenizer ends
the token before it and consumes the remainder of the line as a comment, while
the string tokenizer keeps it inside the token. -/
theorem C5_tokenizers_agree (l : List Nat)
    (hg : goodBytesB l = true) (hh : hashOkB l = true) :
    tokensStr l = tokensStream l := by
  rw [tokensStr, tokensStream]
  exact tokensF_agree (l.length + 1) l hg hh

/-- Claim C5 witness: agreement on a concrete stream with a comment line. -/
theorem C5_witness :
    tokensStr (bytes "P3 # c\n12 34") = tokensStream (bytes "P3 # c\n12 34") :=
  C5_tokenizers_agree (bytes "P3 # c\n12 34") (by decide) (by decide)

/-- Claim C6, counterexample: a P6 header declaring 30000 x 10000 pixels
(3*10^8 > 10^8) is rejected, but on the P6 path the returned Image keeps the
parsed width and height (main.cpp line 284 returns without resetting them),
so the result is not the empty/zero Image the claim requires. -/
theorem C6_counterexample :
    ∃ img, LoadPPM (bytes "P6\n30000 10000\n255\n") = .err img .tooLarge ∧
      img ≠ emptyImg ∧ img.width = 30000 ∧ img.height = 10000 :=
  ⟨{ width := 30000, height := 10000, pixels := [] }, by decide, by decide,
    by decide, by decide⟩

/-- Claim C6 as amended: the size-cap predicate of the code accepts every
positive pixel count up to 100,000,000 and rejects every larger one; a
declared pixel count of 3*10^8 fails the load (with empty pixels, and with
width/height also reset on the raw P3 path), and a count of exactly 10^8
passes the cap (the load then proceeds to the pixel data). -/
theorem C6_size_cap :
    (∀ pc : Nat, 0 < pc → pc ≤ 100000000 → sizeCheckFails pc = false) ∧
    (∀ pc : Nat, 100000000 < pc → sizeCheckFails pc = true) ∧
    LoadPPM (bytes "P3\n30000 10000\n255\n") = .err emptyImg .tooLarge ∧
    LoadPPM (bytes "P3\n10000 10000\n255\n") = .err emptyImg .truncated := by
  refine ⟨fun pc h1 h2 => ?_, fun pc h1 => ?_, by decide, by decide⟩
  · simp [sizeCheckFails]; omega
  · simp [sizeCheckFails]; omega

/-- Claim C6 witness: the cap predicate evaluated at 4 and at the claim's
3*10^8 scenario. -/
theorem C6_witness : sizeCheckFails 4 = false ∧ sizeCheckFails 300000000 = true :=
  ⟨C6_size_cap.1 4 (by decide) (by decide), C6_size_cap.2.1 300000000 (by decide)⟩

/-- Claim C7: the spec's 2x2 scenario decodes to exactly the claimed
byte-quadruples in memory order [Blue, Green, Red, 0], and in every
successfully decoded image every pixel's fourth byte is 0. -/
theorem C7_pixel_byte_order :
    LoadPPM (bytes "P3\n2 2\n255\n255 0 0  0 255 0  0 0 255  255 255 255\n")
      = .ok { width := 2, height := 2,
              pixels := [{ b0 := 0, b1 := 0, b2 := 255, b3 := 0 },
                         { b0 := 0, b1 := 255, b2 := 0, b3 := 0 },
                         { b0 := 255, b1 := 0, b2 := 0, b3 := 0 },
                         { b0 := 255, b1 := 255, b2 := 255, b3 := 0 }] } ∧
    (∀ input img, LoadPPM input = .ok img → ∀ p ∈ img.pixels, p.b3 = 0) :=
  ⟨by decide,
   fun input img h p hp => (LoadPPM_ok_pixels input img h p hp).2.2.2⟩

/-- Claim C7 witness: the padding-byte part applied to the first decoded pixel
of the 2x2 scenario. -/
theorem C7_witness : (Pix.mk 0 0 255 0).b3 = 0 :=
  C7_pixel_byte_order.2 (bytes "P3\n2 2\n255\n255 0 0  0 255 0  0 0 255  255 255 255\n")
    { width := 2, height := 2,
      pixels := [{ b0 := 0, b1 := 0, b2 := 255, b3 := 0 },
                 { b0 := 0, b1 := 255, b2 := 0, b3 := 0 },
                 { b0 := 255, b1 := 0, b2 := 0, b3 := 0 },
                 { b0 := 255, b1 := 255, b2 := 255, b3 := 0 }] }
    (by decide) (Pix.mk 0 0 255 0) (by decide)

/-- Claim C8: std::stoi accepts a token whose leading bytes form a decimal
number and ignores trailing non-digit junk, returning the numeric value of
the digit run; consequently a pixel token "12abc" decodes as 12 and a width
token "1y" parses as width 1. -/
theorem C8_trailing_junk :
    (∀ ds junk : List Nat, ds ≠ [] → (∀ d ∈ ds, isDigitB d = true) →
      (∀ j, junk.head? = some j → isDigitB j = false) →
      (digitsVal ds : Int) ≤ 2147483647 →
      stoi (ds ++ junk) = .ok (digitsVal ds)) ∧
    LoadPPM (bytes "P3\n1 1\n255\n12abc 0 0")
      = .ok { width := 1, height := 1,
              pixels := [{ b0 := 0, b1 := 0, b2 := 12, b3 := 0 }] } ∧
    LoadPPM (bytes "P3\n1y 1\n255\n5 6 7")
      = .ok { width := 1, height := 1,
              pixels := [{ b0 := 7, b1 := 6, b2 := 5, b3 := 0 }] } :=
  ⟨stoi_digits_with_junk, by decide, by decide⟩

/-- Claim C8 witness: stoi on the bytes of "12abc" returns 12. -/
theorem C8_witness : stoi ([49, 50] ++ [97, 98, 99]) = .ok (digitsVal [49, 50]) :=
  C8_trailing_junk.1 [49, 50] [97, 98, 99] (by decide) (by decide)
    (fun j hj => by cases hj; decide) (by decide)

/-- Claim C9: on the UTF-8-BOM path only the bytes strictly before the first
NUL are handed to the string parser (getline with delimiter 0), so appending
a NUL and any trailing bytes changes nothing; in particular a P3 document
whose pixel data lies past an embedded NUL fails as truncated even though the
bytes are present in the stream. -/
theorem C9_nul_truncation :
    (∀ pre post : List Nat, (0 : Nat) ∉ pre →
      LoadPPM (239 :: 187 :: 191 :: (pre ++ 0 :: post))
        = LoadPPM (239 :: 187 :: 191 :: pre)) ∧
    LoadPPM (239 :: 187 :: 191 :: (bytes "P3\n1 1\n255\n" ++ 0 :: bytes "0 0 0"))
      = .err emptyImg .truncated := by
  constructor
  · intro pre post hpre
    have hall : ∀ a ∈ pre, (fun b => !(b == 0)) a = true := by
      intro a ha
      have hne : a ≠ 0 := fun h => hpre (h ▸ ha)
      simp [hne]
    have h1 : (pre ++ 0 :: post).takeWhile (fun b => !(b == 0)) = pre := by
      rw [List.takeWhile_append_of_pos hall, List.takeWhile_cons]
      norm_num
    have h2 : pre.takeWhile (fun b => !(b == 0)) = pre :=
      List.takeWhile_eq_self_iff.mpr hall
    rw [LoadPPM, LoadPPM]
    simp only [List.getD_cons_zero, List.getD_cons_succ, List.takeWhile_cons, h1, h2]
    norm_num
  · decide

/-- Claim C9 witness: the NUL-cut equation applied to a concrete split. -/
theorem C9_witness :
    LoadPPM (239 :: 187 :: 191 :: (bytes "P3" ++ 0 :: [49]))
      = LoadPPM (239 :: 187 :: 191 :: bytes "P3") :=
  C9_nul_truncation.1 (bytes "P3") [49] (by decide)

/-- Claim C10: the token normalizer terminates on every input: each
iteration of the strip loop that changes the token removes at least one byte
from its front, the loop exits when no rule fires, and the result is always a
suffix of the input (so its length never grows). -/
theorem C10_normalizer_terminates :
    (∀ s t : List Nat, normStep s = some t → t.length < s.length) ∧
    (∀ s : List Nat, normalizeToken s <:+ s) ∧
    (∀ s : List Nat, (normalizeToken s).length ≤ s.length) :=
  ⟨normStep_length, normalizeToken_suffix,
   fun s => (normalizeToken_suffix s).length_le⟩

/-- Claim C10 witness: one strip step on a concrete token, and the suffix
property at the same token. -/
theorem C10_witness :
    ([32, 80] : List Nat).length < ([9, 32, 80] : List Nat).length ∧
    normalizeToken [9, 32, 80] <:+ [9, 32, 80] :=
  ⟨C10_normalizer_terminates.1 [9, 32, 80] [32, 80] (by decide),
   C10_normalizer_terminates.2.1 [9, 32, 80]⟩

end PPM
